import Mathlib

/-!
Verification of the admission-control core of the `mempool` HTTP service:
the keyed rate limiter (`pkg/rate`), the console server lifecycle and
rate-limiting middleware (`console/server.go`), and the signal bridge
(`internal/process/process.go`).

Time is modelled exactly: instants are rationals measured in seconds, and
Go `time.Duration` values are integers measured in nanoseconds (as in Go).
The floating-point token arithmetic of `golang.org/x/time/rate` is modelled
with exact rationals; every property proved here involves only values (small
integer token counts, zero elapsed time) on which the float computation is
exact, so the models agree.
-/

namespace Mempool

/-- Nanoseconds per second; Go's `time.Second` as an integer `time.Duration`. -/
def nanosPerSecond : ℤ := 1000000000

/-- A Go `time.Duration` (`d` nanoseconds) converted to seconds. -/
def durSeconds (d : ℤ) : ℚ := (d : ℚ) / (nanosPerSecond : ℚ)

namespace Rate

/-- Model of `golang.org/x/time/rate.Limiter` (the token bucket used by
`pkg/rate`, a library dependency not vendored under the repository):
`limit` is the refill rate in tokens per second, `burst` the bucket size,
`tokens` the current token count, `last` the instant (in seconds) of the
last state update. -/
structure Limiter where
  limit : ℚ
  burst : ℤ
  tokens : ℚ
  last : ℚ
  deriving Repr, DecidableEq

/-- Model of `rate.NewLimiter(r, b)`. The Go value starts with `tokens = 0`
and `last` equal to the zero time, so the first `advance` saturates the
bucket at `burst`; for any use at or after creation time this is
extensionally the same as starting with a full bucket at the creation
instant, which is how we model it. -/
def NewLimiter (r : ℚ) (b : ℤ) (now : ℚ) : Limiter :=
  { limit := r, burst := b, tokens := (b : ℚ), last := now }

/-- Model of the library's `advance`: refill `tokens` by elapsed time times
`limit`, capped at `burst`, and move `last` to `now` (a `last` in the future
is clamped to `now`, as in the library). -/
def Limiter.advance (l : Limiter) (now : ℚ) : Limiter :=
  let lastTime := if now < l.last then now else l.last
  let elapsed := now - lastTime
  let tokens := l.tokens + l.limit * elapsed
  let tokens := if (l.burst : ℚ) < tokens then (l.burst : ℚ) else tokens
  { l with tokens := tokens, last := now }

/-- Model of `rate.Limiter.Allow` at instant `now`: refill via `advance`,
then consume one token if at least one is available. On success the updated
state is committed; on failure the state is left unchanged (as in the
library, which only commits state for successful reservations). -/
def Limiter.Allow (l : Limiter) (now : ℚ) : Bool × Limiter :=
  let adv := l.advance now
  if 1 ≤ adv.tokens then (true, { adv with tokens := adv.tokens - 1 })
  else (false, l)

end Rate

/-- `rate.Config` from `pkg/rate`: cleanup duration in nanoseconds
(a Go `time.Duration`), capacity and allowed occurrences as Go `int`s. -/
structure Config where
  CleanUpDuration : ℤ
  Capacity : ℤ
  AllowedOccurrences : ℤ
  deriving Repr, DecidableEq

/-- `eventLimits` from `pkg/rate`: per-event token bucket and the instant
(in seconds) of the last occurrence. -/
structure eventLimits where
  limiter : Rate.Limiter
  lastOccurrenceAt : ℚ
  deriving Repr, DecidableEq

/-- The `events` map (`map[string]*eventLimits`) modelled as an association
list with pairwise-distinct keys. -/
abbrev EventMap : Type := List (String × eventLimits)

/-- Map lookup: `limiter.events[event]`. -/
def findEvent : EventMap → String → Option eventLimits
  | [], _ => none
  | (k, v) :: rest, e => if k = e then some v else findEvent rest e

/-- Map update of an existing key: `limiter.events[event] = v` (mutation
through the stored pointer in Go). -/
def setEvent : EventMap → String → eventLimits → EventMap
  | [], _, _ => []
  | (k, v) :: rest, e, v' => if k = e then (k, v') :: rest else (k, v) :: setEvent rest e v'

/-- `rate.Limiter` from `pkg/rate` (the keyed limiter that owns the map).
`mu` guards the map in Go; `IsAllowed` and `cleanup` run under it, so the
sequential model below is exact for any interleaving of complete calls. -/
structure Limiter where
  cleanUpDuration : ℤ
  capacity : ℤ
  allowedOccurrences : ℤ
  events : EventMap
  deriving Repr, DecidableEq

/-- `rate.NewLimiter(config)`: stores the three configuration values
unchanged (no validation of any kind) and starts with an empty map. -/
def NewLimiter (config : Config) : Limiter :=
  { cleanUpDuration := config.CleanUpDuration
    capacity := config.Capacity
    allowedOccurrences := config.AllowedOccurrences
    events := [] }

/-- The per-event refill rate computed inside `IsAllowed`:
`frequency := rate.Limit(time.Second) / rate.Limit(limiter.cleanUpDuration)`,
the ratio of the two nanosecond counts, in tokens per second. -/
def frequency (cleanUpDuration : ℤ) : ℚ :=
  (nanosPerSecond : ℚ) / (cleanUpDuration : ℚ)

/-- `Limiter.IsAllowed(event)` at instant `now` (seconds): for an unknown
event, reject if the map is at capacity, else insert a fresh full bucket and
allow; for a known event, update `lastOccurrenceAt` and consume a token. -/
def Limiter.IsAllowed (limiter : Limiter) (event : String) (now : ℚ) : Bool × Limiter :=
  match findEvent limiter.events event with
  | none =>
    if limiter.capacity ≤ (limiter.events.length : ℤ) then
      (false, limiter)
    else
      let eventLimiter := Rate.NewLimiter (frequency limiter.cleanUpDuration)
        limiter.allowedOccurrences now
      (true, { limiter with
                events := (event, ⟨eventLimiter, now⟩) :: limiter.events })
  | some eventLimit =>
    let (ok, rl) := eventLimit.limiter.Allow now
    (ok, { limiter with events := setEvent limiter.events event ⟨rl, now⟩ })

/-- `Limiter.cleanup()` at instant `now`: delete every event with
`time.Since(event.lastOccurrenceAt) > limiter.cleanUpDuration`. -/
def Limiter.cleanup (limiter : Limiter) (now : ℚ) : Limiter :=
  { limiter with
    events := limiter.events.filter
      (fun p => !(durSeconds limiter.cleanUpDuration < now - p.2.lastOccurrenceAt)) }

/-- State after `n` further `IsAllowed` calls for `event`, all at the same
instant `now`. -/
def iterCalls (limiter : Limiter) (event : String) (now : ℚ) : ℕ → Limiter
  | 0 => limiter
  | n + 1 => (Limiter.IsAllowed (iterCalls limiter event now n) event now).2

/-- States of the keyed limiter reachable from `NewLimiter config` by any
sequence of `IsAllowed` calls and cleanup sweeps, at arbitrary instants. -/
inductive Reachable (config : Config) : Limiter → Prop
  | init : Reachable config (NewLimiter config)
  | isAllowed {lim : Limiter} (event : String) (now : ℚ) :
      Reachable config lim → Reachable config (Limiter.IsAllowed lim event now).2
  | cleanup {lim : Limiter} (now : ℚ) :
      Reachable config lim → Reachable config (lim.cleanup now)

namespace Console

/-- Errors relevant to `Server.Run` (`console/server.go`): Go's
`context.Canceled`, `http.ErrServerClosed`, the `console web server error`
class wrapper added by `Error.Wrap` (`zeebo/errs`), and any other error. -/
inductive GoErr
  | contextCanceled
  | errServerClosed
  | classWrapped (e : GoErr)
  | other (msg : String)
  deriving Repr, DecidableEq

/-- Model of Go `errors.Is` (and of `errs.IsFunc` applied to an
`errors.Is` predicate): the target matches the error or anything in its
unwrap chain; the `errs` class wrapper unwraps to its cause. -/
def goErrorsIs : GoErr → GoErr → Bool
  | .classWrapped inner, target =>
      if GoErr.classWrapped inner = target then true else goErrorsIs inner target
  | e, target => if e = target then true else false

/-- `errors.Is` lifted to a possibly-nil error. -/
def optErrorsIs (e : Option GoErr) (target : GoErr) : Bool :=
  match e with
  | none => false
  | some e => goErrorsIs e target

/-- Model of `Error.Wrap` (`errs.Class.Wrap`): nil stays nil, anything else
gains the class wrapper. -/
def errorWrap (e : Option GoErr) : Option GoErr :=
  e.map GoErr.classWrapped

/-- Model of `errgroup.Group.Wait`: the first non-nil error among the
goroutines' results (nil when every goroutine returned nil). -/
def groupWait : List (Option GoErr) → Option GoErr
  | [] => none
  | none :: rest => groupWait rest
  | some e :: _ => some e

/-- The serve goroutine of `Server.Run`: takes the error returned by
`server.server.Serve`, converts an error whose chain contains
`context.Canceled` or that is `http.ErrServerClosed` to nil, and wraps the
rest in the server error class. -/
def serveTask (serveErr : Option GoErr) : Option GoErr :=
  let isCancelled := optErrorsIs serveErr .contextCanceled
  let err := if isCancelled || optErrorsIs serveErr .errServerClosed then none else serveErr
  errorWrap err

/-- The error returned by `Server.Run`, as a function of the errors produced
by the goroutines' underlying calls: the shutdown goroutine returns
`Error.Wrap(server.server.Shutdown(ctx))`, the sweep goroutine always
returns nil, the serve goroutine returns `serveTask serveErr`, and `Run`
returns `Error.Wrap(group.Wait())`. -/
def runResult (shutdownErr serveErr : Option GoErr) : Option GoErr :=
  errorWrap (groupWait [errorWrap shutdownErr, none, serveTask serveErr])

end Console

namespace Process

/-- Interleaving events for `OnSigInt` (`internal/process/process.go`):
either the OS delivers a registered signal into the channel, or the
spawned goroutine takes a scheduling step. -/
inductive SigEvent
  | deliver
  | sched
  deriving Repr, DecidableEq

/-- State of one `OnSigInt` bridge instance: whether the size-1 buffered
`done` channel holds a signal, whether the goroutine has completed its
single `<-done` receive (invoking the callback and terminating), and how
many times the callback has been invoked. -/
structure SigState where
  chanBuf : Bool
  exited : Bool
  calls : ℕ
  deriving Repr, DecidableEq

/-- State right after `OnSigInt` registers: empty channel, goroutine
waiting, callback never invoked. Registration itself only creates the
channel, calls `signal.Notify` and spawns the goroutine; it performs no
blocking operation. -/
def initSigState : SigState := ⟨false, false, 0⟩

/-- Model of `signal.Notify` delivering a signal to the size-1 buffered
channel: a non-blocking send that drops the signal when the buffer is
full (and is a no-op for the bridge once the goroutine is gone, since the
channel just stays full). -/
def deliverStep (s : SigState) : SigState :=
  if s.chanBuf then s else { s with chanBuf := true }

/-- One scheduling step of `go func() { <-done; onSigInt() }`: if the
goroutine is still alive and a signal is buffered, it receives it, invokes
the callback exactly once, and terminates; otherwise nothing happens. -/
def schedStep (s : SigState) : SigState :=
  if s.exited then s
  else if s.chanBuf then { chanBuf := false, exited := true, calls := s.calls + 1 }
  else s

/-- One interleaving event. -/
def sigStep (s : SigState) : SigEvent → SigState
  | .deliver => deliverStep s
  | .sched => schedStep s

/-- Execution of a whole interleaving. -/
def execSig (evs : List SigEvent) (s : SigState) : SigState :=
  evs.foldl sigStep s

end Process

namespace Net

/-- The twelve leading bytes of an IPv4 address embedded in the 16-byte
form, as in Go, where `net.IPv4(a,b,c,d)` yields `::ffff:a.b.c.d`. -/
def v4MappedHead : List ℕ := [0, 0, 0, 0, 0, 0, 0, 0, 0, 0, 0xff, 0xff]

/-- Go's `net.IP` as produced by `ParseIP`: a list of 16 byte values. -/
abbrev IP : Type := List ℕ

/-- Decimal digit scanner, model of Go's `dtoi`: value and number of
characters consumed; fails on zero digits or a value reaching `0xFFFFFF`. -/
def dtoiAux : List Char → ℕ → ℕ → ℕ × ℕ
  | [], n, i => (n, i)
  | c :: rest, n, i =>
    if '0' ≤ c ∧ c ≤ '9' then dtoiAux rest (n * 10 + (c.toNat - 48)) (i + 1)
    else (n, i)

/-- Model of Go's `dtoi`. -/
def dtoi (s : List Char) : Option (ℕ × ℕ) :=
  let r := dtoiAux s 0 0
  if r.2 = 0 then none else if 0xFFFFFF ≤ r.1 then none else some r

/-- Hexadecimal digit value. -/
def hexDigitVal (c : Char) : Option ℕ :=
  if '0' ≤ c ∧ c ≤ '9' then some (c.toNat - 48)
  else if 'a' ≤ c ∧ c ≤ 'f' then some (c.toNat - 87)
  else if 'A' ≤ c ∧ c ≤ 'F' then some (c.toNat - 55)
  else none

/-- Hexadecimal scanner, model of Go's `xtoi`. -/
def xtoiAux : List Char → ℕ → ℕ → ℕ × ℕ
  | [], n, i => (n, i)
  | c :: rest, n, i =>
    match hexDigitVal c with
    | some d => xtoiAux rest (n * 16 + d) (i + 1)
    | none => (n, i)

/-- Model of Go's `xtoi`. -/
def xtoi (s : List Char) : Option (ℕ × ℕ) :=
  let r := xtoiAux s 0 0
  if r.2 = 0 then none else if 0xFFFFFF ≤ r.1 then none else some r

/-- One dotted-decimal field of `parseIPv4`: value ≤ 255, no leading zero
(`"0"` itself is fine), returning the value and the rest of the input. -/
def dtoiField (s : List Char) : Option (ℕ × List Char) :=
  match dtoi s with
  | none => none
  | some (v, c) =>
    if 255 < v then none
    else if 1 < c ∧ s.head? = some '0' then none
    else some (v, s.drop c)

/-- The four dot-separated fields of `parseIPv4`; the last field must end
the input. -/
def parseIPv4Fields : ℕ → List Char → Option (List ℕ)
  | 0, _ => none
  | 1, s =>
    match dtoiField s with
    | some (v, rest) => if rest = [] then some [v] else none
    | none => none
  | n + 2, s =>
    match dtoiField s with
    | some (v, rest) =>
      match rest with
      | '.' :: r2 =>
        match parseIPv4Fields (n + 1) r2 with
        | some vs => some (v :: vs)
        | none => none
      | _ => none
    | none => none

/-- Model of Go's `parseIPv4`: yields the 16-byte `net.IPv4` form. -/
def parseIPv4 (s : List Char) : Option IP :=
  match parseIPv4Fields 4 s with
  | some [a, b, c, d] => some (v4MappedHead ++ [a, b, c, d])
  | _ => none

/-- Post-loop phase of Go's `parseIPv6`: any unconsumed input is an error; a
short address needs an ellipsis, which expands to zero bytes at its
position; a full 16-byte address must not also contain an ellipsis. -/
def parseIPv6Finish (s : List Char) (acc : List ℕ) (ell : Option ℕ) : Option IP :=
  if s ≠ [] then none
  else if acc.length < 16 then
    match ell with
    | none => none
    | some e => some (acc.take e ++ List.replicate (16 - acc.length) 0 ++ acc.drop e)
  else
    match ell with
    | none => some acc
    | some _ => none

/-- Main loop of Go's `parseIPv6`, one recursive step per 16-bit group (the
fuel bounds the eight iterations of Go's `for i < IPv6len` loop; each
recursive call follows the writing of one two-byte group, so fuel 9 is
never exhausted). A group followed by a dot switches to a trailing IPv4
address covering the whole remainder. -/
def parseIPv6Loop : ℕ → List Char → List ℕ → Option ℕ → Option IP
  | 0, _, _, _ => none
  | fuel + 1, s, acc, ell =>
    if 16 ≤ acc.length then parseIPv6Finish s acc ell
    else
      match xtoi s with
      | none => none
      | some (n, c) =>
        if 0xFFFF < n then none
        else if c < s.length ∧ (s.drop c).head? = some '.' then
          if ell = none ∧ acc.length ≠ 12 then none
          else if 16 < acc.length + 4 then none
          else
            match parseIPv4 s with
            | none => none
            | some ip4 => parseIPv6Finish [] (acc ++ ip4.drop 12) ell
        else
          let acc2 := acc ++ [n / 256, n % 256]
          let s2 := s.drop c
          if s2 = [] then parseIPv6Finish [] acc2 ell
          else if s2.head? ≠ some ':' ∨ s2.length = 1 then none
          else
            let s3 := s2.drop 1
            if s3.head? = some ':' then
              match ell with
              | some _ => none
              | none =>
                let s4 := s3.drop 1
                if s4 = [] then parseIPv6Finish [] acc2 (some acc2.length)
                else parseIPv6Loop fuel s4 acc2 (some acc2.length)
            else parseIPv6Loop fuel s3 acc2 ell

/-- Model of Go's `parseIPv6`. -/
def parseIPv6 (s : List Char) : Option IP :=
  match s with
  | ':' :: ':' :: rest =>
    if rest = [] then some (List.replicate 16 0)
    else parseIPv6Loop 9 rest [] (some 0)
  | _ => parseIPv6Loop 9 s [] none

/-- The dispatch scan of Go's `net.ParseIP`: the first `'.'` or `':'`
decides between the IPv4 and IPv6 grammars. -/
def firstDotOrColon : List Char → Option Bool
  | [] => none
  | c :: rest =>
    if c = '.' then some true
    else if c = ':' then some false
    else firstDotOrColon rest

/-- Model of Go's `net.ParseIP`. -/
def ParseIP (s : String) : Option IP :=
  match firstDotOrColon s.toList with
  | some true => parseIPv4 s.toList
  | some false => parseIPv6 s.toList
  | none => none

/-- Model of `net.IP.To4` on the 16-byte form: recognizes the v4-mapped
prefix. -/
def to4 (ip : IP) : Option (List ℕ) :=
  if ip.take 12 = v4MappedHead then some (ip.drop 12) else none

/-- 16-byte address as eight 16-bit groups. -/
def bytesToGroups : List ℕ → List ℕ
  | a :: b :: rest => (a * 256 + b) :: bytesToGroups rest
  | _ => []

/-- Maximal runs of zero groups (start index and length), left to right. -/
def zeroRunsAux : List ℕ → ℕ → Option (ℕ × ℕ) → List (ℕ × ℕ)
  | [], _, none => []
  | [], _, some r => [r]
  | g :: rest, i, none =>
    if g = 0 then zeroRunsAux rest (i + 1) (some (i, 1))
    else zeroRunsAux rest (i + 1) none
  | g :: rest, i, some r =>
    if g = 0 then zeroRunsAux rest (i + 1) (some (r.1, r.2 + 1))
    else r :: zeroRunsAux rest (i + 1) none

/-- The zero run elided as `::` by `net.IP.String`: the leftmost longest
run of at least two zero groups, as in Go's RFC 5952 formatting. -/
def bestZeroRun (gs : List ℕ) : Option (ℕ × ℕ) :=
  (zeroRunsAux gs 0 none).foldl
    (fun best r =>
      if r.2 < 2 then best
      else
        match best with
        | none => some r
        | some b => if b.2 < r.2 then some r else best)
    none

/-- A 16-bit group in lowercase hex without leading zeros. -/
def hexGroup (n : ℕ) : String :=
  String.mk (Nat.toDigits 16 n)

/-- IPv6 textual form of `net.IP.String`: groups joined by `':'` with the
best zero run elided as `::`. -/
def formatV6 (gs : List ℕ) : String :=
  match bestZeroRun gs with
  | none => String.intercalate ":" (gs.map hexGroup)
  | some (s, l) =>
    String.intercalate ":" ((gs.take s).map hexGroup) ++ "::" ++
      String.intercalate ":" ((gs.drop (s + l)).map hexGroup)

/-- Model of `net.IP.String` on addresses produced by `ParseIP`: dotted
decimal for (v4-mapped) IPv4 addresses, RFC 5952 text otherwise. -/
def ipString (ip : IP) : String :=
  match to4 ip with
  | some bs => String.intercalate "." (bs.map (fun n => toString n))
  | none => formatV6 (bytesToGroups ip)

/-- Index of the last `':'`, model of Go's `last(s, ':')`. -/
def lastColonIdx (s : List Char) : Option ℕ :=
  let idxs := (List.range s.length).filter (fun i => s.getD i ' ' = ':')
  idxs.getLast?

/-- Model of Go's `net.SplitHostPort` (errors collapsed to `none`). -/
def splitHostPort (hostport : String) : Option (String × String) :=
  let cs := hostport.toList
  match lastColonIdx cs with
  | none => none
  | some i =>
    if cs.head? = some '[' then
      match (List.range cs.length).find? (fun j => cs.getD j ' ' = ']') with
      | none => none
      | some e =>
        if e + 1 = cs.length then none
        else if e + 1 ≠ i then none
        else
          let host := cs.drop 1 |>.take (e - 1)
          if (cs.drop 1).contains '[' then none
          else if (cs.drop (e + 1)).contains ']' then none
          else some (String.mk host, String.mk (cs.drop (i + 1)))
    else
      let host := cs.take i
      if host.contains ':' then none
      else if cs.contains '[' then none
      else if cs.contains ']' then none
      else some (String.mk host, String.mk (cs.drop (i + 1)))

end Net

namespace Console

/-- The parts of an inbound `http.Request` that `Server.getIP` reads:
the `X-Forwarded-For` header value (`""` when absent, as returned by
`Header.Get`) and `RemoteAddr`. -/
structure Request where
  xff : String
  remoteAddr : String
  deriving Repr, DecidableEq

/-- Model of Go `strings.Split` with a one-character separator: splits at
every occurrence, keeping empty fields; the empty string yields `[""]`, so
the result is never empty. -/
def splitOnChar (sep : Char) : List Char → List (List Char)
  | [] => [[]]
  | c :: rest =>
    if c = sep then [] :: splitOnChar sep rest
    else
      match splitOnChar sep rest with
      | f :: more => (c :: f) :: more
      | [] => [[c]]

/-- The last entry of the comma-split `X-Forwarded-For` chain:
`splitIps[len(splitIps)-1]` (`strings.Split` never yields an empty slice,
so the Go guard `len(splitIps) > 0` always passes and the default is never
used). -/
def lastForwarded (r : Request) : String :=
  String.mk ((splitOnChar ',' r.xff.toList).getLastD [])

/-- Model of `Server.getIP`: prefer the last `X-Forwarded-For` entry when
it parses as an IP; otherwise the host part of `RemoteAddr`, with the
canonical string `"::1"` replaced by `"127.0.0.1"`; `none` is the error
case (middleware responds 400). -/
def getIP (r : Request) : Option String :=
  match Net.ParseIP (lastForwarded r) with
  | some netIP => some (Net.ipString netIP)
  | none =>
    match Net.splitHostPort r.remoteAddr with
    | none => none
    | some (ip, _) =>
      match Net.ParseIP ip with
      | some netIP =>
        let ipStr := Net.ipString netIP
        if ipStr = "::1" then some "127.0.0.1" else some ipStr
      | none => none

/-- Outcome of the rate-limiting middleware for one request. -/
inductive MiddlewareOutcome
  | badRequest
  | tooManyRequests (ip : String)
  | forwarded (ip : String)
  deriving Repr, DecidableEq

/-- Model of `Server.rateLimit` for one request at instant `now`: HTTP 400
without consulting the limiter when no IP can be resolved; otherwise admit
through `IsAllowed`, forwarding on `true` and responding 429 on `false`. -/
def rateLimit (lim : Limiter) (r : Request) (now : ℚ) : MiddlewareOutcome × Limiter :=
  match getIP r with
  | none => (.badRequest, lim)
  | some ip =>
    let res := Limiter.IsAllowed lim ip now
    if res.1 then (.forwarded ip, res.2) else (.tooManyRequests ip, res.2)

end Console

/-! ## Basic lemmas about `IsAllowed` -/

/-- Creation branch of `IsAllowed`: an unknown event below capacity is
admitted and inserted with a full bucket, stamped with the current instant. -/
lemma isAllowed_create (lim : Limiter) (k : String) (t : ℚ)
    (hfind : findEvent lim.events k = none)
    (hlen : (lim.events.length : ℤ) < lim.capacity) :
    Limiter.IsAllowed lim k t =
      (true, { lim with events :=
        (k, ⟨Rate.NewLimiter (frequency lim.cleanUpDuration) lim.allowedOccurrences t, t⟩)
          :: lim.events }) := by
  simp only [Limiter.IsAllowed, hfind]
  rw [if_neg (not_le.mpr hlen)]

/-- Rejection branch of `IsAllowed`: an unknown event at (or above) capacity
is rejected and the limiter state is returned unchanged. -/
lemma isAllowed_reject (lim : Limiter) (k : String) (t : ℚ)
    (hfind : findEvent lim.events k = none)
    (hlen : lim.capacity ≤ (lim.events.length : ℤ)) :
    Limiter.IsAllowed lim k t = (false, lim) := by
  simp only [Limiter.IsAllowed, hfind]
  rw [if_pos hlen]

/-- One `IsAllowed` call on a limiter tracking exactly one event, issued at
that event's `last` instant (zero elapsed time, so no refill): allowed
exactly when at least one token is available, consuming one token. -/
lemma isAllowed_single_step (lim : Limiter) (k : String) (t : ℚ) (f τ : ℚ) (b : ℤ)
    (hev : lim.events = [(k, ⟨⟨f, b, τ, t⟩, t⟩)]) (hτb : τ ≤ (b : ℚ)) :
    Limiter.IsAllowed lim k t =
      (if 1 ≤ τ then true else false,
       { lim with events := [(k, ⟨⟨f, b, if 1 ≤ τ then τ - 1 else τ, t⟩, t⟩)] }) := by
  have hadv : Rate.Limiter.advance ⟨f, b, τ, t⟩ t = ⟨f, b, τ, t⟩ := by
    simp only [Rate.Limiter.advance, lt_irrefl, if_false, sub_self, mul_zero, add_zero]
    rw [if_neg (not_lt.mpr hτb)]
  have hfind : findEvent lim.events k = some ⟨⟨f, b, τ, t⟩, t⟩ := by
    rw [hev]; simp [findEvent]
  simp only [Limiter.IsAllowed, hfind, Rate.Limiter.Allow, hadv]
  by_cases h1 : 1 ≤ τ
  · rw [if_pos h1, if_pos h1, if_pos h1]
    simp [hev, setEvent]
  · rw [if_neg h1, if_neg h1, if_neg h1]
    simp [hev, setEvent]

/-- After the creating call at instant `t` and then `j ≤ a` further calls
at the same instant, the limiter tracks exactly the one event, whose bucket
holds `a - j` tokens. -/
lemma iterCalls_single_state (config : Config) (k : String) (t : ℚ) (a : ℕ)
    (hcap : 1 ≤ config.Capacity) (hocc : config.AllowedOccurrences = (a : ℤ)) :
    ∀ j : ℕ, j ≤ a →
      iterCalls (Limiter.IsAllowed (NewLimiter config) k t).2 k t j =
        { cleanUpDuration := config.CleanUpDuration
          capacity := config.Capacity
          allowedOccurrences := (a : ℤ)
          events := [(k, ⟨⟨frequency config.CleanUpDuration, (a : ℤ),
                           (a : ℚ) - (j : ℚ), t⟩, t⟩)] } := by
  have hcreate := isAllowed_create (NewLimiter config) k t rfl
    (by simp [NewLimiter]; omega)
  intro j hj
  induction j with
  | zero =>
    simp only [iterCalls, hcreate]
    simp [NewLimiter, Rate.NewLimiter, hocc]
  | succ n ih =>
    have hn : n ≤ a := Nat.le_of_succ_le hj
    have hstate := ih hn
    simp only [iterCalls, hstate]
    rw [isAllowed_single_step _ k t _ _ _ rfl
      (by push_cast; linarith [Nat.cast_nonneg (α := ℚ) n])]
    have h1 : (1 : ℚ) ≤ (a : ℚ) - (n : ℚ) := by
      have : n + 1 ≤ a := hj
      have := (Nat.cast_le (α := ℚ)).mpr this
      push_cast at this ⊢
      linarith
    rw [if_pos h1]
    simp only [Limiter.mk.injEq, List.cons.injEq, Prod.mk.injEq, eventLimits.mk.injEq,
      Rate.Limiter.mk.injEq, and_true, true_and]
    rw [if_pos h1]
    push_cast
    ring

/-- C1: for a single key, after the call that creates it, exactly
`allowedOccurrences` consecutive immediate `IsAllowed` calls return `true`,
and the next immediate call (before any refill elapses) returns `false`. -/
theorem isAllowed_exactly_allowedOccurrences (config : Config) (k : String) (t : ℚ) (a : ℕ)
    (hcap : 1 ≤ config.Capacity) (hocc : config.AllowedOccurrences = (a : ℤ)) :
    (Limiter.IsAllowed (NewLimiter config) k t).1 = true ∧
    (∀ j : ℕ, j < a →
      (Limiter.IsAllowed
        (iterCalls (Limiter.IsAllowed (NewLimiter config) k t).2 k t j) k t).1 = true) ∧
    (Limiter.IsAllowed
      (iterCalls (Limiter.IsAllowed (NewLimiter config) k t).2 k t a) k t).1 = false := by
  have hcreate := isAllowed_create (NewLimiter config) k t rfl
    (by simp [NewLimiter]; omega)
  refine ⟨by rw [hcreate], ?_, ?_⟩
  · intro j hj
    rw [iterCalls_single_state config k t a hcap hocc j (Nat.le_of_lt hj)]
    rw [isAllowed_single_step _ k t _ _ _ rfl
      (by push_cast; linarith [Nat.cast_nonneg (α := ℚ) j])]
    have h1 : (1 : ℚ) ≤ (a : ℚ) - (j : ℚ) := by
      have : j + 1 ≤ a := hj
      have := (Nat.cast_le (α := ℚ)).mpr this
      push_cast at this ⊢
      linarith
    rw [if_pos h1]
  · rw [iterCalls_single_state config k t a hcap hocc a le_rfl]
    rw [isAllowed_single_step _ k t _ _ _ rfl
      (by push_cast; linarith [Nat.cast_nonneg (α := ℚ) a])]
    rw [if_neg (by norm_num)]

/-- Witness for C1 at the configuration of the repository's own test
(`cleanUpDuration` 5s, capacity 10, `allowedOccurrences` 10): the 10th
post-creation call is allowed and the 11th is denied. -/
theorem isAllowed_exactly_allowedOccurrences_witness :
    (Limiter.IsAllowed (NewLimiter ⟨5000000000, 10, 10⟩) "event" 0).1 = true ∧
    (Limiter.IsAllowed
      (iterCalls (Limiter.IsAllowed (NewLimiter ⟨5000000000, 10, 10⟩) "event" 0).2
        "event" 0 9) "event" 0).1 = true ∧
    (Limiter.IsAllowed
      (iterCalls (Limiter.IsAllowed (NewLimiter ⟨5000000000, 10, 10⟩) "event" 0).2
        "event" 0 10) "event" 0).1 = false := by
  have h := isAllowed_exactly_allowedOccurrences ⟨5000000000, 10, 10⟩ "event" 0 10
    (by decide) (by decide)
  exact ⟨h.1, h.2.1 9 (by decide), h.2.2⟩

/-- Known-event branch of `IsAllowed`: refresh `lastOccurrenceAt` and defer
to the event's token bucket. -/
lemma isAllowed_known (lim : Limiter) (k : String) (t : ℚ) (v : eventLimits)
    (hfind : findEvent lim.events k = some v) :
    Limiter.IsAllowed lim k t =
      ((v.limiter.Allow t).1,
       { lim with events := setEvent lim.events k ⟨(v.limiter.Allow t).2, t⟩ }) := by
  simp only [Limiter.IsAllowed, hfind]

/-- `setEvent` touches only the value stored at the key: the key list is
unchanged. -/
lemma setEvent_keys (es : EventMap) (k : String) (v : eventLimits) :
    (setEvent es k v).map Prod.fst = es.map Prod.fst := by
  induction es with
  | nil => rfl
  | cons hd tl ih =>
    obtain ⟨k0, v0⟩ := hd
    by_cases hk : k0 = k
    · simp [setEvent, hk]
    · simp [setEvent, hk, ih]

/-- `setEvent` preserves the number of entries. -/
lemma setEvent_length (es : EventMap) (k : String) (v : eventLimits) :
    (setEvent es k v).length = es.length := by
  have h := congrArg List.length (setEvent_keys es k v)
  simpa using h

/-- `findEvent` misses exactly the keys outside the key list. -/
lemma findEvent_eq_none_iff (es : EventMap) (k : String) :
    findEvent es k = none ↔ k ∉ es.map Prod.fst := by
  induction es with
  | nil => simp [findEvent]
  | cons hd tl ih =>
    obtain ⟨k0, v0⟩ := hd
    by_cases hk : k0 = k
    · subst hk
      simp [findEvent]
    · simp [findEvent, hk, ih, Ne.symm hk]

/-- `findEvent` hits exactly the keys in the key list. -/
lemma findEvent_isSome_iff (es : EventMap) (k : String) :
    (findEvent es k).isSome ↔ k ∈ es.map Prod.fst := by
  induction es with
  | nil => simp [findEvent]
  | cons hd tl ih =>
    obtain ⟨k0, v0⟩ := hd
    by_cases hk : k0 = k
    · subst hk
      simp [findEvent]
    · simp [findEvent, hk, ih, Ne.symm hk]

/-- The configuration fields of the limiter are untouched by `IsAllowed`. -/
lemma isAllowed_preserves_fields (lim : Limiter) (k : String) (t : ℚ) :
    (Limiter.IsAllowed lim k t).2.cleanUpDuration = lim.cleanUpDuration ∧
    (Limiter.IsAllowed lim k t).2.capacity = lim.capacity ∧
    (Limiter.IsAllowed lim k t).2.allowedOccurrences = lim.allowedOccurrences := by
  cases hf : findEvent lim.events k with
  | none =>
    by_cases hc : lim.capacity ≤ (lim.events.length : ℤ)
    · rw [isAllowed_reject lim k t hf hc]
      exact ⟨rfl, rfl, rfl⟩
    · rw [isAllowed_create lim k t hf (not_le.mp hc)]
      exact ⟨rfl, rfl, rfl⟩
  | some v =>
    rw [isAllowed_known lim k t v hf]
    exact ⟨rfl, rfl, rfl⟩

/-- `IsAllowed` either keeps the key list or prepends the (previously
absent) requested key after a capacity check. -/
lemma isAllowed_keys (lim : Limiter) (k : String) (t : ℚ) :
    (Limiter.IsAllowed lim k t).2.events.map Prod.fst = lim.events.map Prod.fst ∨
    ((Limiter.IsAllowed lim k t).2.events.map Prod.fst = k :: lim.events.map Prod.fst ∧
     findEvent lim.events k = none ∧ (lim.events.length : ℤ) < lim.capacity) := by
  cases hf : findEvent lim.events k with
  | none =>
    by_cases hc : lim.capacity ≤ (lim.events.length : ℤ)
    · left
      rw [isAllowed_reject lim k t hf hc]
    · right
      rw [isAllowed_create lim k t hf (not_le.mp hc)]
      exact ⟨rfl, rfl, not_le.mp hc⟩
  | some v =>
    left
    rw [isAllowed_known lim k t v hf]
    exact setEvent_keys lim.events k _

/-- Reachable limiters carry the construction-time configuration. -/
lemma reachable_fields {config : Config} {lim : Limiter} (h : Reachable config lim) :
    lim.cleanUpDuration = config.CleanUpDuration ∧
    lim.capacity = config.Capacity ∧
    lim.allowedOccurrences = config.AllowedOccurrences := by
  induction h with
  | init => exact ⟨rfl, rfl, rfl⟩
  | @isAllowed lim0 k t hr ih =>
    have hp := isAllowed_preserves_fields lim0 k t
    exact ⟨hp.1.trans ih.1, hp.2.1.trans ih.2.1, hp.2.2.trans ih.2.2⟩
  | cleanup t hr ih => exact ih

/-- Reachable limiters have pairwise-distinct keys, so the association-list
model of the Go map is exact. -/
lemma reachable_nodup {config : Config} {lim : Limiter} (h : Reachable config lim) :
    (lim.events.map Prod.fst).Nodup := by
  induction h with
  | init => exact List.nodup_nil
  | @isAllowed lim0 k t hr ih =>
    rcases isAllowed_keys lim0 k t with hk | ⟨hk, hnone, _⟩
    · rw [hk]; exact ih
    · rw [hk]
      exact List.nodup_cons.mpr ⟨(findEvent_eq_none_iff _ _).mp hnone, ih⟩
  | cleanup t hr ih =>
    exact ih.sublist (List.Sublist.map Prod.fst (List.filter_sublist _))

/-- Reachable limiters never track more than `capacity` keys. -/
lemma reachable_length_le {config : Config} (hcap : 0 ≤ config.Capacity)
    {lim : Limiter} (h : Reachable config lim) :
    (lim.events.length : ℤ) ≤ config.Capacity := by
  induction h with
  | init => simpa [NewLimiter] using hcap
  | @isAllowed lim0 k t hr ih =>
    have hcapeq := (reachable_fields hr).2.1
    rcases isAllowed_keys lim0 k t with hk | ⟨hk, _, hlt⟩
    · have hlen := congrArg List.length hk
      simp only [List.length_map] at hlen
      rw [hlen]
      exact ih
    · have hlen := congrArg List.length hk
      simp only [List.length_map, List.length_cons] at hlen
      rw [hlen]
      rw [hcapeq] at hlt
      push_cast
      omega
  | cleanup t hr ih =>
    refine le_trans ?_ ih
    exact_mod_cast List.length_filter_le _ _

/-- Lookup at the first entry's key. -/
lemma findEvent_cons_self (k : String) (v : eventLimits) (rest : EventMap) :
    findEvent ((k, v) :: rest) k = some v := by
  simp [findEvent]

/-- Lookup skips an entry with another key. -/
lemma findEvent_cons_ne (k0 k : String) (v : eventLimits) (rest : EventMap)
    (h : k0 ≠ k) :
    findEvent ((k0, v) :: rest) k = findEvent rest k := by
  simp [findEvent, h]

/-- Lookup into a filtered map with distinct keys: a key maps to `v` iff it
did before and `v` passes the filter. -/
lemma findEvent_filter (es : EventMap) (p : String × eventLimits → Bool) (k : String)
    (hnd : (es.map Prod.fst).Nodup) (v : eventLimits) :
    findEvent (es.filter p) k = some v ↔
      (findEvent es k = some v ∧ p (k, v) = true) := by
  induction es with
  | nil => simp [findEvent]
  | cons hd tl ih =>
    obtain ⟨k0, v0⟩ := hd
    have hk0 : k0 ∉ tl.map Prod.fst := (List.nodup_cons.mp hnd).1
    have hnd2 : (tl.map Prod.fst).Nodup := (List.nodup_cons.mp hnd).2
    by_cases hk : k0 = k
    · subst hk
      cases hp : p (k0, v0) with
      | true =>
        rw [List.filter_cons_of_pos hp, findEvent_cons_self, findEvent_cons_self]
        constructor
        · intro h
          refine ⟨h, ?_⟩
          obtain rfl : v0 = v := Option.some.inj h
          exact hp
        · exact fun h => h.1
      | false =>
        rw [List.filter_cons_of_neg (by simp [hp]), findEvent_cons_self]
        have hnone : findEvent (tl.filter p) k0 = none := by
          refine (findEvent_eq_none_iff _ _).mpr ?_
          intro hm
          exact hk0 ((List.Sublist.map Prod.fst (List.filter_sublist tl)).subset hm)
        rw [hnone]
        constructor
        · intro h
          cases h
        · rintro ⟨hv, hpv⟩
          obtain rfl : v0 = v := Option.some.inj hv
          rw [hp] at hpv
          cases hpv
    · cases hp : p (k0, v0) with
      | true =>
        rw [List.filter_cons_of_pos hp, findEvent_cons_ne k0 k _ _ hk,
          findEvent_cons_ne k0 k _ _ hk]
        exact ih hnd2
      | false =>
        rw [List.filter_cons_of_neg (by simp [hp]), findEvent_cons_ne k0 k _ _ hk]
        exact ih hnd2

/-- C4: in every reachable state `len(entries) ≤ capacity`; an `IsAllowed`
call for an untracked key while at capacity returns `false` with the state
unchanged, and no `IsAllowed` call ever evicts an existing key. -/
theorem capacity_never_exceeded (config : Config) (hcap : 0 ≤ config.Capacity)
    (lim : Limiter) (hr : Reachable config lim) :
    (lim.events.length : ℤ) ≤ config.Capacity ∧
    (∀ k t, findEvent lim.events k = none →
      config.Capacity ≤ (lim.events.length : ℤ) →
      Limiter.IsAllowed lim k t = (false, lim)) ∧
    (∀ k t k2, (findEvent lim.events k2).isSome →
      (findEvent (Limiter.IsAllowed lim k t).2.events k2).isSome) := by
  refine ⟨reachable_length_le hcap hr, ?_, ?_⟩
  · intro k t hnone hge
    refine isAllowed_reject lim k t hnone ?_
    rw [(reachable_fields hr).2.1]
    exact hge
  · intro k t k2 hsome
    rw [findEvent_isSome_iff] at hsome ⊢
    rcases isAllowed_keys lim k t with hk | ⟨hk, _, _⟩
    · rw [hk]
      exact hsome
    · rw [hk]
      exact List.mem_cons_of_mem _ hsome

/-- Witness for C4 with a zero-capacity configuration: the initial state is
at capacity, so an unseen key is rejected with the state unchanged. -/
theorem capacity_never_exceeded_witness :
    Limiter.IsAllowed (NewLimiter ⟨7, 0, 2⟩) "192.0.2.8" 0 =
      (false, NewLimiter ⟨7, 0, 2⟩) :=
  (capacity_never_exceeded ⟨7, 0, 2⟩ (by decide) (NewLimiter ⟨7, 0, 2⟩)
    Reachable.init).2.1 "192.0.2.8" 0 rfl (by decide)

/-- C5: a sweep pass removes exactly the tracked keys idle longer than
`cleanUpDuration` (a key survives with its value iff it was present and not
expired), and once the sweep has freed space an evicted key's next
`IsAllowed` call is a fresh creation returning `true`. -/
theorem cleanup_sweep_exact (config : Config) (lim : Limiter) (t u : ℚ)
    (hr : Reachable config lim) :
    (∀ k v, findEvent (lim.cleanup t).events k = some v ↔
      (findEvent lim.events k = some v ∧
       ¬ durSeconds lim.cleanUpDuration < t - v.lastOccurrenceAt)) ∧
    (∀ k, findEvent (lim.cleanup t).events k = none →
      ((lim.cleanup t).events.length : ℤ) < lim.capacity →
      (Limiter.IsAllowed (lim.cleanup t) k u).1 = true) := by
  constructor
  · intro k v
    have hnd := reachable_nodup hr
    rw [show (lim.cleanup t).events = lim.events.filter
      (fun p => !(durSeconds lim.cleanUpDuration < t - p.2.lastOccurrenceAt)) from rfl]
    rw [findEvent_filter lim.events _ k hnd v]
    simp
  · intro k hnone hlen
    rw [isAllowed_create (lim.cleanup t) k u hnone hlen]

/-- Witness for C5: with a one-second window and capacity 1, the key seen at
instant 0 is evicted by a sweep at instant 2, after which its next call is
admitted again even though the limiter had been full. -/
theorem cleanup_sweep_exact_witness :
    (Limiter.IsAllowed
      ((Limiter.IsAllowed (NewLimiter ⟨1000000000, 1, 1⟩) "old" 0).2.cleanup 2)
      "old" 2).1 = true := by
  have hcr := isAllowed_create (NewLimiter ⟨1000000000, 1, 1⟩) "old" 0 rfl (by decide)
  have hevents :
      ((Limiter.IsAllowed (NewLimiter ⟨1000000000, 1, 1⟩) "old" 0).2.cleanup 2).events
        = [] := by
    rw [hcr]
    show List.filter _ _ = []
    rw [List.filter_cons_of_neg ?pred]
    case pred =>
      simp only [NewLimiter, Bool.not_eq_true, Bool.not_eq_false, decide_eq_true_eq]
      norm_num [durSeconds, nanosPerSecond]
    rfl
  have hcap2 :
      ((Limiter.IsAllowed (NewLimiter ⟨1000000000, 1, 1⟩) "old" 0).2).capacity = 1 := by
    rw [hcr]
    rfl
  exact (cleanup_sweep_exact ⟨1000000000, 1, 1⟩
      (Limiter.IsAllowed (NewLimiter ⟨1000000000, 1, 1⟩) "old" 0).2 2 2
      (Reachable.isAllowed "old" 0 Reachable.init)).2 "old"
    (by rw [hevents]; rfl) (by rw [hevents, hcap2]; decide)

/-- C3: for an untracked key with `len(entries) < capacity`, `IsAllowed`
returns `true`, inserts the key with a full bucket (no token deducted for
this first call) and `lastSeenAt = now`, and keeps all existing entries. -/
theorem isAllowed_untracked_below_capacity (lim : Limiter) (k : String) (t : ℚ)
    (hfind : findEvent lim.events k = none)
    (hlen : (lim.events.length : ℤ) < lim.capacity) :
    (Limiter.IsAllowed lim k t).1 = true ∧
    (Limiter.IsAllowed lim k t).2.events =
      (k, ⟨⟨frequency lim.cleanUpDuration, lim.allowedOccurrences,
            (lim.allowedOccurrences : ℚ), t⟩, t⟩) :: lim.events ∧
    findEvent (Limiter.IsAllowed lim k t).2.events k =
      some ⟨⟨frequency lim.cleanUpDuration, lim.allowedOccurrences,
             (lim.allowedOccurrences : ℚ), t⟩, t⟩ := by
  rw [isAllowed_create lim k t hfind hlen]
  refine ⟨rfl, rfl, ?_⟩
  simp [findEvent, Rate.NewLimiter]

/-- Witness for C3: a fresh limiter (capacity 10, allowed 10) admits the
previously unseen key `"203.0.113.7"` and tracks it with a full bucket. -/
theorem isAllowed_untracked_below_capacity_witness :
    (Limiter.IsAllowed (NewLimiter ⟨5000000000, 10, 10⟩) "203.0.113.7" 2).1 = true ∧
    findEvent (Limiter.IsAllowed (NewLimiter ⟨5000000000, 10, 10⟩) "203.0.113.7" 2).2.events
        "203.0.113.7" =
      some ⟨⟨frequency 5000000000, 10, (10 : ℚ), 2⟩, 2⟩ := by
  have h := isAllowed_untracked_below_capacity (NewLimiter ⟨5000000000, 10, 10⟩)
    "203.0.113.7" 2 rfl (by decide)
  exact ⟨h.1, h.2.2⟩

/-- C10: an `IsAllowed` call that rejects an untracked key because the map
is at capacity returns the limiter state entirely unchanged. -/
theorem isAllowed_at_capacity_leaves_state_unchanged (lim : Limiter) (k : String) (t : ℚ)
    (hfind : findEvent lim.events k = none)
    (hlen : lim.capacity ≤ (lim.events.length : ℤ)) :
    Limiter.IsAllowed lim k t = (false, lim) :=
  isAllowed_reject lim k t hfind hlen

/-- Witness for C10 with a zero-capacity limiter, already at capacity when
empty: the call is rejected and the state is returned untouched. -/
theorem isAllowed_at_capacity_leaves_state_unchanged_witness :
    Limiter.IsAllowed (NewLimiter ⟨1000000000, 0, 3⟩) "198.51.100.2" 7 =
      (false, NewLimiter ⟨1000000000, 0, 3⟩) :=
  isAllowed_at_capacity_leaves_state_unchanged (NewLimiter ⟨1000000000, 0, 3⟩)
    "198.51.100.2" 7 rfl (by decide)

/-- C2, counterexample: with the repository test configuration
(`cleanUpDuration` 5 s, `allowedOccurrences` 10), the bucket created for an
unknown key has refill rate `1/5` token per second, so exactly one token —
not `allowedOccurrences = 10` tokens — becomes available per
`cleanUpDuration` window. -/
theorem bucket_refill_rate_counterexample :
    (Limiter.IsAllowed (NewLimiter ⟨5000000000, 10, 10⟩) "ip" 0).2.events =
      [("ip", ⟨⟨1 / 5, 10, 10, 0⟩, 0⟩)] ∧
    (1 / 5 : ℚ) * durSeconds 5000000000 = 1 ∧
    ¬ ((1 / 5 : ℚ) * durSeconds 5000000000 = (10 : ℚ)) := by
  refine ⟨?_, by norm_num [durSeconds, nanosPerSecond], by norm_num [durSeconds, nanosPerSecond]⟩
  rw [isAllowed_create (NewLimiter ⟨5000000000, 10, 10⟩) "ip" 0 rfl (by decide)]
  norm_num [NewLimiter, Rate.NewLimiter, frequency, nanosPerSecond]

/-- C2, amended: the bucket constructed for an unknown key has refill rate
`time.Second / cleanUpDuration` tokens per second — exactly one token per
`cleanUpDuration` window — and full initial capacity of
`allowedOccurrences` tokens (burst equals `allowedOccurrences`). -/
theorem bucket_construction_rate_and_capacity (lim : Limiter) (k : String) (t : ℚ)
    (hfind : findEvent lim.events k = none)
    (hlen : (lim.events.length : ℤ) < lim.capacity)
    (hd : lim.cleanUpDuration ≠ 0) :
    ∃ v, findEvent (Limiter.IsAllowed lim k t).2.events k = some v ∧
      v.limiter.limit = frequency lim.cleanUpDuration ∧
      v.limiter.burst = lim.allowedOccurrences ∧
      v.limiter.tokens = (lim.allowedOccurrences : ℚ) ∧
      v.limiter.limit * durSeconds lim.cleanUpDuration = 1 := by
  rw [isAllowed_create lim k t hfind hlen]
  refine ⟨⟨⟨frequency lim.cleanUpDuration, lim.allowedOccurrences,
            (lim.allowedOccurrences : ℚ), t⟩, t⟩, ?_, rfl, rfl, rfl, ?_⟩
  · simp [findEvent, Rate.NewLimiter]
  · have h9 : ((nanosPerSecond : ℤ) : ℚ) ≠ 0 := by norm_num [nanosPerSecond]
    have hdq : ((lim.cleanUpDuration : ℤ) : ℚ) ≠ 0 := Int.cast_ne_zero.mpr hd
    field_simp [frequency, durSeconds]

/-- Witness for the amended C2, at `cleanUpDuration` 2 s, capacity 4,
`allowedOccurrences` 3: the created bucket holds 3 tokens and refills one
token per window. -/
theorem bucket_construction_rate_and_capacity_witness :
    ∃ v, findEvent (Limiter.IsAllowed (NewLimiter ⟨2000000000, 4, 3⟩) "peer" 1).2.events
        "peer" = some v ∧
      v.limiter.limit = frequency 2000000000 ∧
      v.limiter.burst = 3 ∧
      v.limiter.tokens = (3 : ℚ) ∧
      v.limiter.limit * durSeconds 2000000000 = 1 :=
  bucket_construction_rate_and_capacity (NewLimiter ⟨2000000000, 4, 3⟩) "peer" 1
    rfl (by decide) (by decide)

/-- C7, counterexample: `NewLimiter` accepts a configuration with negative
`cleanUpDuration` and `allowedOccurrences` without any error: it stores the
values as given and the resulting limiter is usable (it admits an event),
so a non-positive value is not fatal at construction. -/
theorem newLimiter_no_validation_counterexample :
    (NewLimiter ⟨-7, 5, -3⟩).cleanUpDuration = -7 ∧
    (NewLimiter ⟨-7, 5, -3⟩).allowedOccurrences = -3 ∧
    (Limiter.IsAllowed (NewLimiter ⟨-7, 5, -3⟩) "k" 0).1 = true := by
  refine ⟨rfl, rfl, ?_⟩
  rw [(isAllowed_create (NewLimiter ⟨-7, 5, -3⟩) "k" 0 rfl (by decide))]

/-- C7, amended: `NewLimiter` performs no validation whatsoever: it stores
the three configuration values exactly as given (positive or not) with an
empty event map, and whenever the stored capacity is at least one the
limiter is immediately usable. -/
theorem newLimiter_stores_config_unvalidated (config : Config) (k : String) (t : ℚ)
    (hcap : 1 ≤ config.Capacity) :
    NewLimiter config =
      ⟨config.CleanUpDuration, config.Capacity, config.AllowedOccurrences, []⟩ ∧
    (Limiter.IsAllowed (NewLimiter config) k t).1 = true := by
  refine ⟨rfl, ?_⟩
  rw [isAllowed_create (NewLimiter config) k t rfl (by simp [NewLimiter]; omega)]

/-- Witness for the amended C7 at a configuration whose duration and
occurrence count are negative: construction still succeeds and the limiter
functions. -/
theorem newLimiter_stores_config_unvalidated_witness :
    NewLimiter ⟨-40, 2, -6⟩ = ⟨-40, 2, -6, []⟩ ∧
    (Limiter.IsAllowed (NewLimiter ⟨-40, 2, -6⟩) "x" 9).1 = true :=
  newLimiter_stores_config_unvalidated ⟨-40, 2, -6⟩ "x" 9 (by decide)

/-- C6: when the root context is cancelled and no task has failed (the
shutdown call and the sweep goroutine return nil), `Run` returns a nil
error: an expected shutdown error from `Serve` — one whose chain contains
`context.Canceled`, or `http.ErrServerClosed` — is converted to success
inside the serve goroutine and never propagates as `Run`'s reported
failure cause. -/
theorem run_nil_error_on_clean_shutdown (shutdownErr serveErr : Option Console.GoErr)
    (hshut : shutdownErr = none)
    (hserve : Console.optErrorsIs serveErr .contextCanceled = true ∨
              Console.optErrorsIs serveErr .errServerClosed = true) :
    Console.serveTask serveErr = none ∧
    Console.runResult shutdownErr serveErr = none := by
  subst hshut
  have htask : Console.serveTask serveErr = none := by
    unfold Console.serveTask
    rcases hserve with h | h
    · rw [h]
      rfl
    · rw [h]
      simp [Console.errorWrap]
  refine ⟨htask, ?_⟩
  unfold Console.runResult
  rw [htask]
  rfl

/-- Witness for C6: `Serve` returning `http.ErrServerClosed` after a clean
`Shutdown` yields a nil result from `Run`. -/
theorem run_nil_error_on_clean_shutdown_witness :
    Console.serveTask (some .errServerClosed) = none ∧
    Console.runResult none (some .errServerClosed) = none :=
  run_nil_error_on_clean_shutdown none (some .errServerClosed) rfl
    (Or.inr (by decide))

/-- The callback-count bookkeeping of the signal bridge: the callback has
run exactly once iff the goroutine has finished its single receive. -/
lemma sigState_inv (evs : List Process.SigEvent) (s : Process.SigState)
    (h : s.calls = if s.exited then 1 else 0) :
    (Process.execSig evs s).calls = if (Process.execSig evs s).exited then 1 else 0 := by
  induction evs generalizing s with
  | nil => exact h
  | cons e rest ih =>
    refine ih (Process.sigStep s e) ?_
    cases e with
    | deliver =>
      unfold Process.sigStep Process.deliverStep
      by_cases hb : s.chanBuf
      · simpa [hb] using h
      · simpa [hb] using h
    | sched =>
      unfold Process.sigStep Process.schedStep
      by_cases hx : s.exited
      · simpa [hx] using h
      · by_cases hb : s.chanBuf
        · simp [hx, hb] at h ⊢
          simp [h]
        · simpa [hx, hb] using h

/-- Once the goroutine has exited, later events change neither that nor the
number of callback invocations. -/
lemma sigState_exited_stable (evs : List Process.SigEvent) (s : Process.SigState)
    (h : s.exited = true) :
    (Process.execSig evs s).exited = true ∧
    (Process.execSig evs s).calls = s.calls := by
  induction evs generalizing s with
  | nil => exact ⟨h, rfl⟩
  | cons e rest ih =>
    cases e with
    | deliver =>
      have hstep : (Process.sigStep s .deliver).exited = true ∧
          (Process.sigStep s .deliver).calls = s.calls := by
        unfold Process.sigStep Process.deliverStep
        by_cases hb : s.chanBuf
        · simp [hb, h]
        · simp [hb, h]
      obtain ⟨h1, h2⟩ := ih (Process.sigStep s .deliver) hstep.1
      exact ⟨h1, h2.trans hstep.2⟩
    | sched =>
      have hstep : Process.sigStep s .sched = s := by
        unfold Process.sigStep Process.schedStep
        simp [h]
      rw [Process.execSig, List.foldl_cons, hstep]
      exact ih s h

/-- After a delivery followed by a scheduling step, the goroutine has
exited. -/
lemma sigState_fires (s : Process.SigState) :
    (Process.execSig [.deliver, .sched] s).exited = true := by
  unfold Process.execSig
  simp only [List.foldl_cons, List.foldl_nil]
  unfold Process.sigStep Process.deliverStep Process.schedStep
  by_cases hx : s.exited
  · by_cases hb : s.chanBuf <;> simp [hx, hb]
  · by_cases hb : s.chanBuf <;> simp [hx, hb]

/-- C9: the `OnSigInt` callback is invoked at most once over any
interleaving of signal deliveries and goroutine scheduling, and in any
interleaving containing a signal delivery immediately followed by a
scheduling step of the goroutine it is invoked exactly once (the first
signal fires it; it never fires again). Registration itself performs no
blocking operation: `initSigState` is the state right after `OnSigInt`
returns. -/
theorem onSigInt_callback_at_most_once :
    (∀ evs : List Process.SigEvent,
      (Process.execSig evs Process.initSigState).calls ≤ 1) ∧
    (∀ pre post : List Process.SigEvent,
      (Process.execSig (pre ++ ([.deliver, .sched] ++ post))
        Process.initSigState).calls = 1) := by
  constructor
  · intro evs
    have h := sigState_inv evs Process.initSigState rfl
    rw [h]
    by_cases hx : (Process.execSig evs Process.initSigState).exited <;> simp [hx]
  · intro pre post
    have hsplit : Process.execSig (pre ++ ([.deliver, .sched] ++ post))
        Process.initSigState =
        Process.execSig post (Process.execSig [.deliver, .sched]
          (Process.execSig pre Process.initSigState)) := by
      unfold Process.execSig
      rw [List.foldl_append, List.foldl_append]
    rw [hsplit]
    set mid := Process.execSig [.deliver, .sched] (Process.execSig pre Process.initSigState)
      with hmid
    have hex : mid.exited = true := sigState_fires _
    have hpre := sigState_inv pre Process.initSigState rfl
    have hmidinv : mid.calls = if mid.exited then 1 else 0 := by
      rw [hmid]
      exact sigState_inv [.deliver, .sched] _ hpre
    have hstable := sigState_exited_stable post mid hex
    rw [hstable.2, hmidinv, hex]
    rfl

/-- C8, counterexample: a request whose `X-Forwarded-For` header is `::1`
gets admission key `"::1"`, not `"127.0.0.1"`: the IPv6-loopback
normalization is applied only on the `RemoteAddr` fallback path (third
conjunct), never to a forwarded-for entry. -/
theorem getIP_xff_loopback_unnormalized_counterexample :
    Console.getIP ⟨"::1", "203.0.113.5:443"⟩ = some "::1" ∧
    Console.getIP ⟨"::1", "203.0.113.5:443"⟩ ≠ some "127.0.0.1" ∧
    Console.getIP ⟨"", "[::1]:443"⟩ = some "127.0.0.1" := by
  refine ⟨rfl, ?_, rfl⟩
  rw [show Console.getIP ⟨"::1", "203.0.113.5:443"⟩ = some "::1" from rfl]
  decide

/-- C8, amended: the admission key prefers the last entry of the
`X-Forwarded-For` chain when it parses as an IP (rendered in canonical
form, with no loopback normalization on this path); otherwise it is the
host part of `RemoteAddr` when that parses, with canonical `"::1"`
normalized to `"127.0.0.1"` on this path only; when neither resolves, the
middleware answers 400 without consulting the limiter (state untouched),
and otherwise it feeds exactly the derived key to `IsAllowed`. -/
theorem getIP_key_derivation (lim : Limiter) (r : Console.Request) (t : ℚ) :
    (∀ ip, Net.ParseIP (Console.lastForwarded r) = some ip →
      Console.getIP r = some (Net.ipString ip)) ∧
    (Net.ParseIP (Console.lastForwarded r) = none →
      ∀ host port ip, Net.splitHostPort r.remoteAddr = some (host, port) →
        Net.ParseIP host = some ip →
        Console.getIP r =
          some (if Net.ipString ip = "::1" then "127.0.0.1" else Net.ipString ip)) ∧
    (Net.ParseIP (Console.lastForwarded r) = none →
      Net.splitHostPort r.remoteAddr = none → Console.getIP r = none) ∧
    (Console.getIP r = none → Console.rateLimit lim r t = (.badRequest, lim)) ∧
    (∀ ip, Console.getIP r = some ip →
      Console.rateLimit lim r t =
        (if (Limiter.IsAllowed lim ip t).1 then .forwarded ip
         else .tooManyRequests ip, (Limiter.IsAllowed lim ip t).2)) := by
  refine ⟨?_, ?_, ?_, ?_, ?_⟩
  · intro ip h
    simp only [Console.getIP, h]
  · intro hnone host port ip hsplit hparse
    simp only [Console.getIP, hnone, hsplit, hparse]
    split_ifs <;> rfl
  · intro hnone hsplit
    simp only [Console.getIP, hnone, hsplit]
  · intro h
    simp only [Console.rateLimit, h]
  · intro ip h
    simp only [Console.rateLimit, h]
    cases h2 : (Limiter.IsAllowed lim ip t).1 <;> simp [h2]

/-- Witness for the amended C8: a request with no resolvable IP (junk
header entry and a port-less `RemoteAddr`) is failed with 400 and the
limiter state is returned untouched. -/
theorem getIP_key_derivation_witness :
    Console.rateLimit (NewLimiter ⟨5, 3, 2⟩) ⟨"notanip", "bad"⟩ 0 =
      (.badRequest, NewLimiter ⟨5, 3, 2⟩) :=
  (getIP_key_derivation (NewLimiter ⟨5, 3, 2⟩) ⟨"notanip", "bad"⟩ 0).2.2.2.1 rfl

end Mempool
